import Mathlib

/-!
Verification development for the simple-text-editor (src/main.c).

Embedding conventions:
* a row's `chars` is a `List Nat` of byte values (no trailing NUL);
* the buffer is a `List (List Nat)`; `numrows` is its length;
* C `int` fields of `struct editorConfig` are modelled as `Int`;
* the row's `render` field is derived on demand by `editorUpdateRow`
  (the C code keeps it regenerated after every mutation of `chars`).
-/

/-- EDITOR_TAB_STOP from src/main.c line 23. -/
def EDITOR_TAB_STOP : Nat := 8

/-- EDITOR_QUIT_TIMES from src/main.c line 24. -/
def EDITOR_QUIT_TIMES : Int := 3

/-- Key code BACKSPACE from enum editorKey. -/
def BACKSPACE : Int := 127

/-- Key code ARROW_LEFT from enum editorKey. -/
def ARROW_LEFT : Int := 1000

/-- Key code ARROW_RIGHT from enum editorKey. -/
def ARROW_RIGHT : Int := 1001

/-- Key code ARROW_UP from enum editorKey. -/
def ARROW_UP : Int := 1002

/-- Key code ARROW_DOWN from enum editorKey. -/
def ARROW_DOWN : Int := 1003

/-- Key code DEL_KEY from enum editorKey. -/
def DEL_KEY : Int := 1004

/-- Key code HOME_KEY from enum editorKey. -/
def HOME_KEY : Int := 1005

/-- Key code END_KEY from enum editorKey. -/
def END_KEY : Int := 1006

/-- Key code PAGE_UP from enum editorKey. -/
def PAGE_UP : Int := 1007

/-- Key code PAGE_DOWN from enum editorKey. -/
def PAGE_DOWN : Int := 1008

/-- editorRowsToString (src/main.c 686-708): concatenate every row's chars,
appending a newline byte after every row, including the last. -/
def editorRowsToString : List (List Nat) → List Nat
  | [] => []
  | r :: rs => r ++ 10 :: editorRowsToString rs

/-- The getline loop of editorOpen (src/main.c 730): split a byte stream into
lines; each returned line includes its terminating newline byte, and a final
unterminated chunk is returned as-is.  The first argument accumulates the
current line in reverse. -/
def getlineSplit : List Nat → List Nat → List (List Nat)
  | cur, [] => if cur = [] then [] else [cur.reverse]
  | cur, b :: rest =>
    if b = 10 then (cur.reverse ++ [10]) :: getlineSplit [] rest
    else getlineSplit (b :: cur) rest

/-- The line post-processing of editorOpen (src/main.c 732-734): strip the
whole trailing run of LF/CR bytes from a line. -/
def stripTrailingNL (l : List Nat) : List Nat :=
  (l.reverse.dropWhile (fun c => c == 10 || c == 13)).reverse

/-- editorOpen (src/main.c 716-741), restricted to its buffer effect: the rows
obtained by reading a byte stream line by line and stripping trailing CR/LF. -/
def editorOpenRows (bytes : List Nat) : List (List Nat) :=
  (getlineSplit [] bytes).map stripTrailingNL

/-- editorRowCxToRx (src/main.c 396-407): translate a character index into a
render-column index, expanding tabs.  The C loop visits chars[0..cx). -/
def editorRowCxToRx (chars : List Nat) (cx : Nat) : Nat :=
  (chars.take cx).foldl
    (fun rx c =>
      (if c = 9 then rx + (EDITOR_TAB_STOP - 1 - rx % EDITOR_TAB_STOP) else rx)
        + 1)
    0

/-- Loop of editorRowRxToCx (src/main.c 416-432): walk the row accumulating
the render width cur_rx; return the current character index cx as soon as
cur_rx passes rx, and the row length otherwise. -/
def editorRowRxToCxGo (rx : Nat) : List Nat → Nat → Nat → Nat
  | [], _, cx => cx
  | c :: rest, cur_rx, cx =>
    let cur_rx' :=
      (if c = 9 then cur_rx + (EDITOR_TAB_STOP - 1 - cur_rx % EDITOR_TAB_STOP)
       else cur_rx) + 1
    if rx < cur_rx' then cx else editorRowRxToCxGo rx rest cur_rx' (cx + 1)

/-- editorRowRxToCx (src/main.c 416-432). -/
def editorRowRxToCx (chars : List Nat) (rx : Nat) : Nat :=
  editorRowRxToCxGo rx chars 0 0

/-- Body of the render loop of editorUpdateRow (src/main.c 455-468): a tab
emits one space and then pads with spaces until the render index is a
multiple of EDITOR_TAB_STOP; every other byte is copied. -/
def renderStep (acc : List Nat) (c : Nat) : List Nat :=
  if c = 9 then
    let acc1 := acc ++ [32]
    acc1 ++ List.replicate
      ((EDITOR_TAB_STOP - acc1.length % EDITOR_TAB_STOP) % EDITOR_TAB_STOP) 32
  else acc ++ [c]

/-- editorUpdateRow (src/main.c 443-471), restricted to the render bytes it
produces (rsize is the length of the result). -/
def editorUpdateRow (chars : List Nat) : List Nat :=
  chars.foldl renderStep []

/-- Status messages the modelled operations set (editorSetStatusMessage call
sites).  Following the spec, format-string expansion itself is out of scope,
so each call site is represented by a tag carrying its numeric argument. -/
inductive StatusMsg where
  | empty
  | quitWarning (remaining : Int)
  | bytesWritten (len : Nat)
  | ioError
  | aborted
  | searchPrompt
  deriving DecidableEq, Repr

/-- The editor state: struct editorConfig (src/main.c 74-96), minus the
terminal fields.  numrows is rows.length; each row's render form is derived
by editorUpdateRow. -/
structure EState where
  rows : List (List Nat)
  cx : Int
  cy : Int
  rx : Int
  rowoff : Int
  coloff : Int
  screenrows : Int
  screencols : Int
  modified : Bool
  quit_times : Int
  filename : Option (List Nat)
  statusmsg : StatusMsg
  deriving DecidableEq, Repr

/-- E.numrows as an Int, for comparisons in the C code. -/
def EState.numrows (s : EState) : Int := s.rows.length

/-- E.row[i]: row access; out-of-range reads yield the empty row (the C code
only indexes in range on the states the claims quantify over). -/
def rowGet (rows : List (List Nat)) (i : Int) : List Nat :=
  rows.getD i.toNat []

/-- editorInsertRow (src/main.c 481-501). -/
def editorInsertRow (s : EState) (at_ : Int) (str : List Nat) : EState :=
  if at_ < 0 ∨ at_ > s.numrows then s
  else
    { s with
      rows := s.rows.take at_.toNat ++ str :: s.rows.drop at_.toNat
      modified := true }

/-- editorDelRow (src/main.c 521-530). -/
def editorDelRow (s : EState) (at_ : Int) : EState :=
  if at_ < 0 ∨ at_ ≥ s.numrows then s
  else
    { s with
      rows := s.rows.take at_.toNat ++ s.rows.drop (at_.toNat + 1)
      modified := true }

/-- editorRowInsertChar (src/main.c 540-553) on the row at index rowIdx:
out-of-range insertion positions are clamped to the row length. -/
def editorRowInsertChar (s : EState) (rowIdx at_ : Int) (c : Nat) : EState :=
  let row := rowGet s.rows rowIdx
  let a : Nat :=
    if at_ < 0 ∨ at_ > (row.length : Int) then row.length else at_.toNat
  { s with
    rows := s.rows.set rowIdx.toNat (row.take a ++ c :: row.drop a)
    modified := true }

/-- editorRowDelChar (src/main.c 590-600) on the row at index rowIdx: a no-op
when the position is out of range. -/
def editorRowDelChar (s : EState) (rowIdx at_ : Int) : EState :=
  let row := rowGet s.rows rowIdx
  if at_ < 0 ∨ at_ ≥ (row.length : Int) then s
  else
    { s with
      rows := s.rows.set rowIdx.toNat (row.take at_.toNat ++ row.drop (at_.toNat + 1))
      modified := true }

/-- editorRowAppendString (src/main.c 633-641) on the row at index rowIdx. -/
def editorRowAppendString (s : EState) (rowIdx : Int) (str : List Nat) : EState :=
  { s with
    rows := s.rows.set rowIdx.toNat (rowGet s.rows rowIdx ++ str)
    modified := true }

/-- editorInsertNewLine (src/main.c 564-581): at column 0 insert an empty row
before the current one; otherwise create a new row from the suffix and
truncate the current row to the prefix; then move to the start of the new
row. -/
def editorInsertNewLine (s : EState) : EState :=
  let s1 :=
    if s.cx = 0 then editorInsertRow s s.cy []
    else
      let row := rowGet s.rows s.cy
      let s' := editorInsertRow s (s.cy + 1) (row.drop s.cx.toNat)
      { s' with rows := s'.rows.set s.cy.toNat (row.take s.cx.toNat) }
  { s1 with cy := s1.cy + 1, cx := 0 }

/-- editorInsertChar (src/main.c 611-618): on the virtual row past the end,
first append an empty row; then insert the byte at the cursor and advance. -/
def editorInsertChar (s : EState) (c : Nat) : EState :=
  let s1 := if s.cy = s.numrows then editorInsertRow s s.numrows [] else s
  let s2 := editorRowInsertChar s1 s1.cy s1.cx c
  { s2 with cx := s2.cx + 1 }

/-- editorDelChar (src/main.c 652-671): backspace semantics; at column 0 of a
later row, merge the row into the previous one. -/
def editorDelChar (s : EState) : EState :=
  if s.cy = s.numrows then s
  else if s.cx = 0 ∧ s.cy = 0 then s
  else
    let row := rowGet s.rows s.cy
    if 0 < s.cx then
      let s' := editorRowDelChar s s.cy (s.cx - 1)
      { s' with cx := s.cx - 1 }
    else
      let prevLen : Int := (rowGet s.rows (s.cy - 1)).length
      let s1 := editorRowAppendString s (s.cy - 1) row
      let s2 := editorDelRow s1 s.cy
      { s2 with cx := prevLen, cy := s.cy - 1 }

/-- editorScroll (src/main.c 939-963): recompute rx from the cursor, then
clamp rowoff and coloff so the cursor is inside the visible window.  The four
sequential updates of the C code are written as successive values. -/
def editorScroll (s : EState) : EState :=
  let rx : Int :=
    if s.cy < s.numrows then
      ((editorRowCxToRx (rowGet s.rows s.cy) s.cx.toNat : Nat) : Int)
    else 0
  let ro1 := if s.cy < s.rowoff then s.cy else s.rowoff
  let ro2 := if s.cy ≥ ro1 + s.screenrows then s.cy - s.screenrows + 1 else ro1
  let co1 := if rx < s.coloff then rx else s.coloff
  let co2 := if rx ≥ co1 + s.screencols then rx - s.screencols + 1 else co1
  { s with rx := rx, rowoff := ro2, coloff := co2 }

/-- The static search-session state of editorFindCallback (src/main.c
804-805): the row of the last match (or -1) and the scan direction. -/
structure FindState where
  last_match : Int
  direction : Int
  deriving DecidableEq, Repr

/-- strstr on byte lists: the index of the first occurrence of pat in hay
(an empty pat matches at index 0, as in C). -/
def strstrFirst (hay pat : List Nat) : Option Nat :=
  (List.range (hay.length + 1)).find? (fun i => pat.isPrefixOf (hay.drop i))

/-- The wraparound step of the search loop (src/main.c 835-838): row -1 wraps
to the last row, row numrows wraps to row 0. -/
def searchWrap (numrows current : Int) : Int :=
  if current = -1 then numrows - 1
  else if current = numrows then 0
  else current

/-- The scan loop of editorFindCallback (src/main.c 832-852): at most fuel
probes (the C code uses numrows), stepping current by direction with
wraparound, searching each row's render form; returns the matched row index
and the render-column of the match. -/
def searchLoop (rows : List (List Nat)) (query : List Nat) (direction : Int) :
    Int → Nat → Option (Int × Nat)
  | _, 0 => none
  | current, fuel + 1 =>
    let current' := searchWrap rows.length (current + direction)
    match strstrFirst (editorUpdateRow (rowGet rows current')) query with
    | some idx => some (current', idx)
    | none => searchLoop rows query direction current' fuel

/-- The key-classification prologue of editorFindCallback (src/main.c
813-829): navigation keys set the direction, any other key resets the
session; a session with no last match always scans forward. -/
def findClassify (key : Int) (fs : FindState) : FindState :=
  let fs1 :=
    if key = ARROW_RIGHT ∨ key = ARROW_DOWN then { fs with direction := 1 }
    else if key = ARROW_LEFT ∨ key = ARROW_UP then { fs with direction := -1 }
    else { last_match := -1, direction := 1 }
  if fs1.last_match = -1 then { fs1 with direction := 1 } else fs1

/-- editorFindCallback (src/main.c 802-853): on Enter or Escape reset the
session; otherwise classify the key, scan for a match, and on success move
the cursor to the match (translating the render column back to a byte index)
and set rowoff to numrows. -/
def editorFindCallback (query : List Nat) (key : Int) (fs : FindState)
    (s : EState) : FindState × EState :=
  if key = 13 ∨ key = 27 then ({ last_match := -1, direction := 1 }, s)
  else
    let fs1 := findClassify key fs
    match searchLoop s.rows query fs1.direction fs1.last_match
        s.rows.length with
    | some (r, idx) =>
      ({ fs1 with last_match := r },
       { s with
          cy := r
          cx := ((editorRowRxToCx (rowGet s.rows r) idx : Nat) : Int)
          rowoff := s.numrows })
    | none => (fs1, s)

/-- The two-row buffer of the search-wraparound scenario. -/
def fooRows : List (List Nat) := [[102, 111, 111, 98, 97, 114], [98, 97, 114, 98, 97, 122]]

/-- The starting state of the search-wraparound scenario: cursor at (0,0). -/
def exFind : EState :=
  { rows := fooRows, cx := 0, cy := 0, rx := 0, rowoff := 0, coloff := 0
    screenrows := 24, screencols := 80, modified := false, quit_times := 3
    filename := none, statusmsg := .empty }

/-- First callback invocation of the scenario: full query typed (last key is
the byte of the letter r), fresh session. -/
def findStep1 : FindState × EState :=
  editorFindCallback [98, 97, 114] 114 ⟨-1, 1⟩ exFind

/-- Second callback invocation: forward-navigation key. -/
def findStep2 : FindState × EState :=
  editorFindCallback [98, 97, 114] ARROW_RIGHT findStep1.1 findStep1.2

/-- Third callback invocation: forward-navigation key again, wrapping past
the end of the buffer. -/
def findStep3 : FindState × EState :=
  editorFindCallback [98, 97, 114] ARROW_RIGHT findStep2.1 findStep2.2

/-- A concrete editor state used to witness the scroll-containment theorem. -/
def exScroll : EState :=
  { rows := [[97]], cx := 1, cy := 0, rx := 0, rowoff := 7, coloff := 3
    screenrows := 5, screencols := 5, modified := false, quit_times := 3
    filename := none, statusmsg := .empty }

/-- editorReadKey (src/main.c 228-310): the first byte read is c (the C code
blocks until one arrives); rest is the burst of bytes available to the
follow-up reads, whose exhaustion models the read timeout.  Escape sequences
are decoded to the editorKey codes; anything incomplete or unrecognized
yields a bare ESC (27). -/
def editorReadKey (c : Nat) (rest : List Nat) : Int :=
  if c ≠ 27 then (c : Int)
  else
    match rest with
    | [] => 27
    | [_] => 27
    | s0 :: s1 :: rest2 =>
      if s0 = 91 then
        if 48 ≤ s1 ∧ s1 ≤ 57 then
          match rest2 with
          | [] => 27
          | s2 :: _ =>
            if s2 = 126 then
              if s1 = 49 then HOME_KEY
              else if s1 = 51 then DEL_KEY
              else if s1 = 52 then END_KEY
              else if s1 = 53 then PAGE_UP
              else if s1 = 54 then PAGE_DOWN
              else if s1 = 55 then HOME_KEY
              else if s1 = 56 then END_KEY
              else 27
            else 27
        else
          if s1 = 65 then ARROW_UP
          else if s1 = 66 then ARROW_DOWN
          else if s1 = 67 then ARROW_RIGHT
          else if s1 = 68 then ARROW_LEFT
          else if s1 = 72 then HOME_KEY
          else if s1 = 70 then END_KEY
          else 27
      else if s0 = 79 then
        if s1 = 72 then HOME_KEY
        else if s1 = 70 then END_KEY
        else 27
      else 27

/-- Outcome of the file-system steps of editorSave: open, ftruncate, and the
write-length check, each of which can fail. -/
inductive FsOutcome where
  | openFail
  | truncateFail
  | writeFail
  | success
  deriving DecidableEq, Repr

/-- The body of editorSave (src/main.c 762-785) once a filename is set:
serialize, then open/truncate/write; only a fully successful write clears
modified and reports the byte count, every failure leaves the state except
for the error message. -/
def editorSaveWithFile (s : EState) (out : FsOutcome) : EState :=
  let len := (editorRowsToString s.rows).length
  match out with
  | .success => { s with modified := false, statusmsg := .bytesWritten len }
  | _ => { s with statusmsg := .ioError }

/-- editorSave (src/main.c 750-786).  The interactive Save-as prompt (whose
callback is NULL) is abstracted by its result promptResult; cancelling it
aborts the save with a status message. -/
def editorSave (s : EState) (promptResult : Option (List Nat))
    (out : FsOutcome) : EState :=
  match s.filename with
  | none =>
    match promptResult with
    | none => { s with statusmsg := .aborted }
    | some f => editorSaveWithFile { s with filename := some f } out
  | some _ => editorSaveWithFile s out

/-- The switch statement of editorMoveCursor (src/main.c 1212-1246): one
arrow-key step.  The row pointer of the C code is NULL exactly when
cy ≥ numrows, which rowGet renders as the empty row. -/
def editorMoveCursorSwitch (s : EState) (key : Int) : EState :=
  if key = ARROW_LEFT then
    if s.cx ≠ 0 then { s with cx := s.cx - 1 }
    else if 0 < s.cy then
      { s with cy := s.cy - 1, cx := ((rowGet s.rows (s.cy - 1)).length : Int) }
    else s
  else if key = ARROW_RIGHT then
    if s.cy < s.numrows ∧ s.cx < ((rowGet s.rows s.cy).length : Int) then
      { s with cx := s.cx + 1 }
    else if s.cy < s.numrows ∧ s.cx = ((rowGet s.rows s.cy).length : Int) then
      { s with cy := s.cy + 1, cx := 0 }
    else s
  else if key = ARROW_UP then
    if s.cy ≠ 0 then { s with cy := s.cy - 1 } else s
  else if key = ARROW_DOWN then
    if s.cy < s.numrows then { s with cy := s.cy + 1 } else s
  else s

/-- editorMoveCursor (src/main.c 1207-1255): the arrow-key switch followed by
the clamp of cx to the (possibly shorter) new row's length. -/
def editorMoveCursor (s : EState) (key : Int) : EState :=
  let s1 := editorMoveCursorSwitch s key
  let rowlen : Int :=
    if s1.cy ≥ s1.numrows then 0 else ((rowGet s1.rows s1.cy).length : Int)
  if s1.cx > rowlen then { s1 with cx := rowlen } else s1

/-- The while(times--) loop of the PageUp/PageDown case (src/main.c
1327-1329). -/
def repeatMove (key : Int) : Nat → EState → EState
  | 0, s => s
  | n + 1, s => repeatMove key n (editorMoveCursor s key)

/-- The PAGE_UP/PAGE_DOWN case of editorProcessKeypress (src/main.c
1315-1331): jump cy to the top/bottom of the viewport, then take screenrows
single-row steps. -/
def pageMove (s : EState) (c : Int) : EState :=
  let s1 :=
    if c = PAGE_UP then { s with cy := s.rowoff }
    else
      let cy1 := s.rowoff + s.screenrows - 1
      { s with cy := if cy1 > s.numrows then s.numrows else cy1 }
  repeatMove (if c = PAGE_UP then ARROW_UP else ARROW_DOWN)
    s1.screenrows.toNat s1

/-- editorPrompt (src/main.c 1151-1199) specialized to the find callback:
the keys typed at the prompt are the script; reaching the end of the script
is modelled as the session still pending and is reported like a
cancellation (a live session always ends in Enter or Escape).  Each
iteration sets the prompt status message and refreshes (editorScroll), then
processes one key; the callback runs after every keystroke. -/
def editorPromptFind :
    FindState → EState → List Nat → List Int →
      FindState × EState × Option (List Nat)
  | fs, s, _, [] => (fs, s, none)
  | fs, s, buf, c :: script =>
    let s0 := editorScroll { s with statusmsg := .searchPrompt }
    if c = DEL_KEY ∨ c = 8 ∨ c = BACKSPACE then
      let buf1 := if buf.length ≠ 0 then buf.dropLast else buf
      let p := editorFindCallback buf1 c fs s0
      editorPromptFind p.1 p.2 buf1 script
    else if c = 27 then
      let p := editorFindCallback buf c fs { s0 with statusmsg := .empty }
      (p.1, p.2, none)
    else if c = 13 then
      if buf.length ≠ 0 then
        let p := editorFindCallback buf c fs { s0 with statusmsg := .empty }
        (p.1, p.2, some buf)
      else
        let p := editorFindCallback buf c fs s0
        editorPromptFind p.1 p.2 buf script
    else if ¬ ((0 ≤ c ∧ c < 32) ∨ c = 127) ∧ c < 128 then
      let buf1 := buf ++ [c.toNat]
      let p := editorFindCallback buf1 c fs s0
      editorPromptFind p.1 p.2 buf1 script
    else
      let p := editorFindCallback buf c fs s0
      editorPromptFind p.1 p.2 buf script

/-- editorFind (src/main.c 864-882): run the prompt wired to the callback
over the typed keys; on cancellation restore the saved cursor and scroll
position. -/
def editorFind (s : EState) (script : List Int) : EState :=
  let saved_cx := s.cx
  let saved_cy := s.cy
  let saved_coloff := s.coloff
  let saved_rowoff := s.rowoff
  let r := editorPromptFind { last_match := -1, direction := 1 } s [] script
  match r.2.2 with
  | some _ => r.2.1
  | none =>
    { r.2.1 with
      cx := saved_cx, cy := saved_cy
      coloff := saved_coloff, rowoff := saved_rowoff }

/-- Result of one editorProcessKeypress dispatch: either the next state or
process termination (exited stands for clearing the screen and exit(0)). -/
inductive StepResult where
  | cont (s : EState)
  | exited
  deriving DecidableEq, Repr

/-- editorProcessKeypress (src/main.c 1263-1350).  The static quit_times is
the state field quit_times, reset to EDITOR_QUIT_TIMES at the end of every
dispatch that reaches the bottom of the function (the quit case returns
early or exits).  The interactive prompts inside the save and find cases are
driven by the parameters savePrompt (result of the Save-as prompt) and
findScript (keys typed into the search prompt). -/
def editorProcessKeypress (s : EState) (c : Int)
    (savePrompt : Option (List Nat)) (saveOut : FsOutcome)
    (findScript : List Int) : StepResult :=
  if c = 13 then
    .cont { editorInsertNewLine s with quit_times := EDITOR_QUIT_TIMES }
  else if c = 17 then
    if s.modified = true ∧ 0 < s.quit_times then
      .cont { s with
              statusmsg := .quitWarning s.quit_times
              quit_times := s.quit_times - 1 }
    else .exited
  else if c = 19 then
    .cont { editorSave s savePrompt saveOut with
            quit_times := EDITOR_QUIT_TIMES }
  else if c = HOME_KEY then
    .cont { s with cx := 0, quit_times := EDITOR_QUIT_TIMES }
  else if c = END_KEY then
    .cont { (if s.cy < s.numrows then
              { s with cx := ((rowGet s.rows s.cy).length : Int) }
             else s) with
            quit_times := EDITOR_QUIT_TIMES }
  else if c = 6 then
    .cont { editorFind s findScript with quit_times := EDITOR_QUIT_TIMES }
  else if c = BACKSPACE ∨ c = 8 ∨ c = DEL_KEY then
    .cont { editorDelChar
              (if c = DEL_KEY then editorMoveCursor s ARROW_RIGHT else s) with
            quit_times := EDITOR_QUIT_TIMES }
  else if c = PAGE_UP ∨ c = PAGE_DOWN then
    .cont { pageMove s c with quit_times := EDITOR_QUIT_TIMES }
  else if c = ARROW_UP ∨ c = ARROW_DOWN ∨ c = ARROW_LEFT ∨ c = ARROW_RIGHT then
    .cont { editorMoveCursor s c with quit_times := EDITOR_QUIT_TIMES }
  else if c = 12 ∨ c = 27 then
    .cont { s with quit_times := EDITOR_QUIT_TIMES }
  else
    .cont { editorInsertChar s c.toNat with quit_times := EDITOR_QUIT_TIMES }

/-- The part of the cursor invariant that editorMoveCursor needs on entry:
cy within [0, numrows] and cx nonnegative. -/
def WeakInv (s : EState) : Prop := 0 ≤ s.cy ∧ s.cy ≤ s.numrows ∧ 0 ≤ s.cx

/-- The cursor validity invariant: 0 ≤ cy ≤ numrows and 0 ≤ cx ≤ length of
row cy (the row past the end is empty, forcing cx = 0 there). -/
def CursorInv (s : EState) : Prop :=
  WeakInv s ∧ s.cx ≤ ((rowGet s.rows s.cy).length : Int)

instance (s : EState) : Decidable (WeakInv s) := by
  unfold WeakInv EState.numrows
  infer_instance

instance (s : EState) : Decidable (CursorInv s) := by
  unfold CursorInv
  infer_instance

/-- A valid-cursor state whose row offset points past the end of its (empty)
buffer; a PageUp dispatch from it breaks the cursor invariant. -/
def exPage : EState :=
  { rows := [], cx := 0, cy := 0, rx := 0, rowoff := 5, coloff := 0
    screenrows := 1, screencols := 10, modified := false, quit_times := 3
    filename := none, statusmsg := .empty }

/-- A well-formed concrete state used to witness the amended cursor
invariant and the split/merge theorem. -/
def exInv : EState :=
  { rows := [[97, 98], [99]], cx := 1, cy := 0, rx := 0, rowoff := 0
    coloff := 0, screenrows := 5, screencols := 10, modified := false
    quit_times := 3, filename := none, statusmsg := .empty }

/-- A modified buffer with a filename set, used to witness the save and quit
theorems. -/
def exSave : EState :=
  { rows := [[104, 105]], cx := 0, cy := 0, rx := 0, rowoff := 0, coloff := 0
    screenrows := 5, screencols := 10, modified := true, quit_times := 3
    filename := some [102], statusmsg := .empty }

/-- The well-formedness of the static search-session state: the last match
is either absent or a valid row index of the buffer. -/
def FindInv (fs : FindState) (rows : List (List Nat)) : Prop :=
  fs.last_match = -1 ∨
    (0 ≤ fs.last_match ∧ fs.last_match < (rows.length : Int))

theorem getlineSplit_append (r rest cur : List Nat) (h : (10 : Nat) ∉ r) :
    getlineSplit cur (r ++ 10 :: rest)
      = (cur.reverse ++ (r ++ [10])) :: getlineSplit [] rest := by
  induction r generalizing cur with
  | nil => simp [getlineSplit]
  | cons a as ih =>
    simp only [List.mem_cons, not_or] at h
    simp only [List.cons_append, getlineSplit, List.append_eq]
    rw [if_neg (fun hh => h.1 hh.symm), ih _ h.2]
    simp

theorem stripTrailingNL_append_nl (r : List Nat) (h10 : (10 : Nat) ∉ r)
    (h13 : r.getLast? ≠ some 13) : stripTrailingNL (r ++ [10]) = r := by
  unfold stripTrailingNL
  have hrev : (r ++ [10]).reverse = 10 :: r.reverse := by simp
  rw [hrev, List.dropWhile_cons, if_pos (by decide)]
  cases hr : r.reverse with
  | nil =>
    have : r = [] := by simpa using congrArg List.reverse hr
    simp [hr, this]
  | cons a as =>
    have ha : r.getLast? = some a := by
      rw [← List.head?_reverse, hr]; rfl
    have ha10 : a ≠ 10 := by
      intro h; apply h10
      have hm : a ∈ r.reverse := by rw [hr]; exact List.mem_cons_self a as
      rw [List.mem_reverse] at hm; rwa [h] at hm
    have ha13 : a ≠ 13 := by
      intro h; apply h13; rw [ha, h]
    have hkeep : List.dropWhile (fun c => c == 10 || c == 13) (a :: as)
        = a :: as := by
      rw [List.dropWhile_cons, if_neg (by simp [ha10, ha13])]
    rw [hkeep, ← hr, List.reverse_reverse]

/-- C1 (amended): saving then loading is the identity on buffers whose rows
contain no LF byte and do not end in a CR byte.  (In general loading re-splits
rows at embedded LF bytes and strips trailing CR runs, see the
counterexample.) -/
theorem save_load_round_trip (rows : List (List Nat))
    (h : ∀ r ∈ rows, (10 : Nat) ∉ r ∧ r.getLast? ≠ some 13) :
    editorOpenRows (editorRowsToString rows) = rows := by
  induction rows with
  | nil => rfl
  | cons r rs ih =>
    have hr := h r (by simp)
    have hrest : ∀ q ∈ rs, (10 : Nat) ∉ q ∧ q.getLast? ≠ some 13 :=
      fun q hq => h q (by simp [hq])
    show editorOpenRows (r ++ 10 :: editorRowsToString rs) = r :: rs
    unfold editorOpenRows
    rw [getlineSplit_append _ _ _ hr.1]
    simp only [List.reverse_nil, List.nil_append, List.map_cons]
    rw [stripTrailingNL_append_nl r hr.1 hr.2]
    rw [show (getlineSplit [] (editorRowsToString rs)).map stripTrailingNL
        = editorOpenRows (editorRowsToString rs) from rfl, ih hrest]

/-- C1 witness: a concrete two-row buffer round-trips through save and load. -/
theorem save_load_round_trip_witness :
    editorOpenRows (editorRowsToString [[104, 105], []]) = [[104, 105], []] :=
  save_load_round_trip [[104, 105], []] (by decide)

/-- C1 counterexample: the buffer whose single row is the byte LF serializes
to two newline bytes, which load back as two empty rows — both the row count
and the row content change, refuting the round trip for every buffer. -/
theorem save_load_round_trip_cex :
    editorOpenRows (editorRowsToString [[10]]) = [[], []] ∧
    editorOpenRows (editorRowsToString [[10]]) ≠ [[10]] ∧
    (editorOpenRows (editorRowsToString [[10]])).length ≠ [[10]].length := by
  decide

/-- C2: after editorScroll, for any state whose cursor satisfies
0 ≤ cy ≤ numrows and 0 ≤ cx ≤ length of row cy, with positive screen
dimensions, the cursor's screen-relative position (cy - rowoff, rx - coloff)
lies within [0, screenrows) x [0, screencols). -/
theorem scroll_containment (s : EState)
    (_h1 : 0 ≤ s.cy) (_h2 : s.cy ≤ s.numrows)
    (_h3 : 0 ≤ s.cx) (_h4 : s.cx ≤ ((rowGet s.rows s.cy).length : Int))
    (h5 : 0 < s.screenrows) (h6 : 0 < s.screencols) :
    0 ≤ (editorScroll s).cy - (editorScroll s).rowoff ∧
    (editorScroll s).cy - (editorScroll s).rowoff < (editorScroll s).screenrows ∧
    0 ≤ (editorScroll s).rx - (editorScroll s).coloff ∧
    (editorScroll s).rx - (editorScroll s).coloff < (editorScroll s).screencols := by
  unfold editorScroll
  dsimp only
  split_ifs <;> refine ⟨by omega, by omega, by omega, by omega⟩

/-- C2 witness: the containment theorem applied to a concrete state with the
viewport scrolled away from the cursor. -/
theorem scroll_containment_witness :
    0 ≤ (editorScroll exScroll).cy - (editorScroll exScroll).rowoff ∧
    (editorScroll exScroll).cy - (editorScroll exScroll).rowoff
      < (editorScroll exScroll).screenrows ∧
    0 ≤ (editorScroll exScroll).rx - (editorScroll exScroll).coloff ∧
    (editorScroll exScroll).rx - (editorScroll exScroll).coloff
      < (editorScroll exScroll).screencols :=
  scroll_containment exScroll (by decide) (by decide) (by decide) (by decide)
    (by decide) (by decide)

/-- C8: tab expansion — a row of a single tab renders as exactly 8 spaces; a
tab whose expansion starts at render-column k (the length of the render
produced so far) emits exactly 8 - (k mod 8) spaces; every other byte maps
1:1; and rendering processes a row byte by byte from the render of any
prefix. -/
theorem tab_expansion :
    editorUpdateRow [9] = List.replicate 8 32 ∧
    (∀ acc : List Nat,
      renderStep acc 9 = acc ++ List.replicate (8 - acc.length % 8) 32) ∧
    (∀ (acc : List Nat) (c : Nat), c ≠ 9 → renderStep acc c = acc ++ [c]) ∧
    (∀ pre suf : List Nat,
      editorUpdateRow (pre ++ suf) = suf.foldl renderStep (editorUpdateRow pre)) := by
  have hstep : ∀ acc : List Nat,
      renderStep acc 9 = acc ++ List.replicate (8 - acc.length % 8) 32 := by
    intro acc
    have hcount : (8 - (acc.length + 1) % 8) % 8 + 1 = 8 - acc.length % 8 := by
      omega
    have hl : (acc ++ [32]).length = acc.length + 1 := by simp
    simp only [renderStep, EDITOR_TAB_STOP, if_pos rfl]
    rw [hl, List.append_assoc, List.singleton_append, ← List.replicate_succ,
      hcount]
    simp
  refine ⟨?_, hstep, ?_, ?_⟩
  · decide
  · intro acc c hc
    simp [renderStep, hc]
  · intro pre suf
    simp [editorUpdateRow, List.foldl_append]

/-- C8 witness: a non-tab byte appended after an existing render is copied
verbatim. -/
theorem tab_expansion_witness : renderStep [97] 98 = [97, 98] :=
  tab_expansion.2.2.1 [97] 98 (by decide)

/-- C3: search wraparound scenario over rows ["foobar", "barbaz"] with query
"bar", starting at (0,0) in the forward direction: the first invocation puts
the cursor at (0,3), the next forward-navigation invocation at (1,0), and a
third wraps past the end back to (0,3). -/
theorem search_wraparound_scenario :
    (findStep1.2.cy = 0 ∧ findStep1.2.cx = 3) ∧
    (findStep2.2.cy = 1 ∧ findStep2.2.cx = 0) ∧
    (findStep3.2.cy = 0 ∧ findStep3.2.cx = 3) := by
  decide

theorem findClassify_direction (key : Int) (fs : FindState) :
    (findClassify key fs).direction = 1 ∨ (findClassify key fs).direction = -1 := by
  by_cases h1 : key = ARROW_RIGHT ∨ key = ARROW_DOWN <;>
    by_cases h2 : key = ARROW_LEFT ∨ key = ARROW_UP <;>
    by_cases h3 : fs.last_match = -1 <;>
    simp [findClassify, h1, h2, h3]

theorem findClassify_last_match (key : Int) (fs : FindState) :
    (findClassify key fs).last_match = -1 ∨
    (findClassify key fs).last_match = fs.last_match := by
  by_cases h1 : key = ARROW_RIGHT ∨ key = ARROW_DOWN <;>
    by_cases h2 : key = ARROW_LEFT ∨ key = ARROW_UP <;>
    by_cases h3 : fs.last_match = -1 <;>
    simp [findClassify, h1, h2, h3]

theorem findClassify_forward (key : Int) (fs : FindState)
    (h : (findClassify key fs).last_match = -1) :
    (findClassify key fs).direction = 1 := by
  by_cases h1 : key = ARROW_RIGHT ∨ key = ARROW_DOWN <;>
    by_cases h2 : key = ARROW_LEFT ∨ key = ARROW_UP <;>
    by_cases h3 : fs.last_match = -1 <;>
    simp_all [findClassify, h1, h2, h3]

theorem searchLoop_row_lt (rows : List (List Nat)) (q : List Nat) (d : Int)
    (hd : d = 1 ∨ d = -1) :
    ∀ (fuel : Nat) (cur r : Int) (idx : Nat),
      (cur = -1 → d = 1) →
      (cur = -1 ∨ (0 ≤ cur ∧ cur < (rows.length : Int))) →
      0 < rows.length →
      searchLoop rows q d cur fuel = some (r, idx) →
      0 ≤ r ∧ r < (rows.length : Int) := by
  intro fuel
  induction fuel with
  | zero =>
    intro cur r idx _ _ _ h
    simp [searchLoop] at h
  | succ n ih =>
    intro cur r idx hneg hcur hlen h
    have hwrap : 0 ≤ searchWrap rows.length (cur + d) ∧
        searchWrap rows.length (cur + d) < (rows.length : Int) := by
      rcases hcur with hcur | hcur
      · have hd1 := hneg hcur
        unfold searchWrap
        split_ifs <;> omega
      · unfold searchWrap
        rcases hd with hd | hd <;> split_ifs <;> omega
    simp only [searchLoop] at h
    cases hmatch : strstrFirst
        (editorUpdateRow (rowGet rows (searchWrap rows.length (cur + d)))) q with
    | some i =>
      rw [hmatch] at h
      simp only [Option.some.injEq, Prod.mk.injEq] at h
      obtain ⟨hr, _⟩ := h
      rw [← hr]
      exact hwrap
    | none =>
      rw [hmatch] at h
      exact ih (searchWrap rows.length (cur + d)) r idx
        (fun hmm => by omega) (Or.inr hwrap) hlen h

/-- C10: whenever the find callback (invoked with a non-Enter, non-Escape
key, in a session whose last match is absent or a valid row) finds a match at
row r, it sets rowoff to numrows, so the next editorScroll clamps rowoff down
to the match row: the matched line becomes the first visible row. -/
theorem find_match_scrolls_to_top (query : List Nat) (key : Int)
    (fs : FindState) (s : EState) (r : Int) (idx : Nat)
    (hk1 : key ≠ 13) (hk2 : key ≠ 27)
    (hlm : fs.last_match = -1 ∨
      (0 ≤ fs.last_match ∧ fs.last_match < s.numrows))
    (hsr : 0 < s.screenrows)
    (hfound : searchLoop s.rows query (findClassify key fs).direction
        (findClassify key fs).last_match s.rows.length = some (r, idx)) :
    (editorFindCallback query key fs s).2.rowoff = s.numrows ∧
    (editorFindCallback query key fs s).2.cy = r ∧
    (editorScroll (editorFindCallback query key fs s).2).rowoff = r := by
  have hlen : 0 < s.rows.length := by
    by_contra hc
    have h0 : s.rows.length = 0 := by omega
    rw [h0] at hfound
    simp [searchLoop] at hfound
  have hr : 0 ≤ r ∧ r < (s.rows.length : Int) := by
    refine searchLoop_row_lt s.rows query (findClassify key fs).direction
      (findClassify_direction key fs) s.rows.length
      (findClassify key fs).last_match r idx
      (findClassify_forward key fs) ?_ hlen hfound
    rcases findClassify_last_match key fs with h | h
    · exact Or.inl h
    · rcases hlm with h' | h'
      · exact Or.inl (h.trans h')
      · exact Or.inr (h ▸ h')
  have hcb : (editorFindCallback query key fs s).2
      = { s with
            cy := r
            cx := ((editorRowRxToCx (rowGet s.rows r) idx : Nat) : Int)
            rowoff := s.numrows } := by
    unfold editorFindCallback
    rw [if_neg (by tauto)]
    dsimp only
    rw [hfound]
  rw [hcb]
  refine ⟨rfl, rfl, ?_⟩
  unfold editorScroll EState.numrows
  dsimp only
  split_ifs <;> simp_all [EState.numrows] <;> omega

/-- C10 witness: in the two-row scenario buffer, the first match at row 0
forces rowoff to 2 and the following scroll recompute brings it to row 0. -/
theorem find_match_scrolls_to_top_witness :
    (editorFindCallback [98, 97, 114] 114 ⟨-1, 1⟩ exFind).2.rowoff
      = exFind.numrows ∧
    (editorFindCallback [98, 97, 114] 114 ⟨-1, 1⟩ exFind).2.cy = 0 ∧
    (editorScroll (editorFindCallback [98, 97, 114] 114 ⟨-1, 1⟩ exFind).2).rowoff
      = 0 :=
  find_match_scrolls_to_top [98, 97, 114] 114 ⟨-1, 1⟩ exFind 0 3
    (by decide) (by decide) (by decide) (by decide) (by decide)

/-- C6: escape-sequence decoding — ESC [ digit ~ maps digits 1,3,4,5,6,7,8 to
Home, Delete, End, PageUp, PageDown, Home, End; ESC [ A/B/C/D/H/F map to
Up/Down/Right/Left/Home/End; ESC O H/F map to Home/End; and every incomplete
or unrecognized sequence after an initial ESC yields a bare ESC keypress. -/
theorem escape_decoding :
    (∀ r, editorReadKey 27 (91 :: 49 :: 126 :: r) = HOME_KEY) ∧
    (∀ r, editorReadKey 27 (91 :: 51 :: 126 :: r) = DEL_KEY) ∧
    (∀ r, editorReadKey 27 (91 :: 52 :: 126 :: r) = END_KEY) ∧
    (∀ r, editorReadKey 27 (91 :: 53 :: 126 :: r) = PAGE_UP) ∧
    (∀ r, editorReadKey 27 (91 :: 54 :: 126 :: r) = PAGE_DOWN) ∧
    (∀ r, editorReadKey 27 (91 :: 55 :: 126 :: r) = HOME_KEY) ∧
    (∀ r, editorReadKey 27 (91 :: 56 :: 126 :: r) = END_KEY) ∧
    (∀ r, editorReadKey 27 (91 :: 65 :: r) = ARROW_UP) ∧
    (∀ r, editorReadKey 27 (91 :: 66 :: r) = ARROW_DOWN) ∧
    (∀ r, editorReadKey 27 (91 :: 67 :: r) = ARROW_RIGHT) ∧
    (∀ r, editorReadKey 27 (91 :: 68 :: r) = ARROW_LEFT) ∧
    (∀ r, editorReadKey 27 (91 :: 72 :: r) = HOME_KEY) ∧
    (∀ r, editorReadKey 27 (91 :: 70 :: r) = END_KEY) ∧
    (∀ r, editorReadKey 27 (79 :: 72 :: r) = HOME_KEY) ∧
    (∀ r, editorReadKey 27 (79 :: 70 :: r) = END_KEY) ∧
    editorReadKey 27 [] = 27 ∧
    (∀ b, editorReadKey 27 [b] = 27) ∧
    (∀ s1, 48 ≤ s1 → s1 ≤ 57 → editorReadKey 27 [91, s1] = 27) ∧
    (∀ s1 s2 r, 48 ≤ s1 → s1 ≤ 57 → s2 ≠ 126 →
      editorReadKey 27 (91 :: s1 :: s2 :: r) = 27) ∧
    (∀ s1 s2 r, 48 ≤ s1 → s1 ≤ 57 →
      s1 ≠ 49 → s1 ≠ 51 → s1 ≠ 52 → s1 ≠ 53 → s1 ≠ 54 → s1 ≠ 55 → s1 ≠ 56 →
      editorReadKey 27 (91 :: s1 :: s2 :: r) = 27) ∧
    (∀ s1 r, ¬ (48 ≤ s1 ∧ s1 ≤ 57) →
      s1 ≠ 65 → s1 ≠ 66 → s1 ≠ 67 → s1 ≠ 68 → s1 ≠ 72 → s1 ≠ 70 →
      editorReadKey 27 (91 :: s1 :: r) = 27) ∧
    (∀ s1 r, s1 ≠ 72 → s1 ≠ 70 → editorReadKey 27 (79 :: s1 :: r) = 27) ∧
    (∀ s0 s1 r, s0 ≠ 91 → s0 ≠ 79 → editorReadKey 27 (s0 :: s1 :: r) = 27) := by
  refine ⟨fun r => rfl, fun r => rfl, fun r => rfl, fun r => rfl, fun r => rfl,
    fun r => rfl, fun r => rfl, fun r => rfl, fun r => rfl, fun r => rfl,
    fun r => rfl, fun r => rfl, fun r => rfl, fun r => rfl, fun r => rfl,
    rfl, fun b => rfl, ?_, ?_, ?_, ?_, ?_, ?_⟩
  · intro s1 h1 h2
    unfold editorReadKey
    rw [if_neg (by decide)]
    dsimp only
    rw [if_pos rfl, if_pos ⟨h1, h2⟩]
  · intro s1 s2 r h1 h2 h3
    unfold editorReadKey
    rw [if_neg (by decide)]
    dsimp only
    rw [if_pos rfl, if_pos ⟨h1, h2⟩, if_neg h3]
  · intro s1 s2 r h1 h2 n1 n3 n4 n5 n6 n7 n8
    unfold editorReadKey
    rw [if_neg (by decide)]
    dsimp only
    rw [if_pos rfl, if_pos ⟨h1, h2⟩]
    split_ifs <;> simp_all
  · intro s1 r hd n1 n2 n3 n4 n5 n6
    unfold editorReadKey
    rw [if_neg (by decide)]
    dsimp only
    rw [if_pos rfl, if_neg hd, if_neg n1, if_neg n2, if_neg n3, if_neg n4,
      if_neg n5, if_neg n6]
  · intro s1 r n1 n2
    unfold editorReadKey
    rw [if_neg (by decide)]
    dsimp only
    rw [if_neg (by decide), if_pos rfl, if_neg n1, if_neg n2]
  · intro s0 s1 r n1 n2
    unfold editorReadKey
    rw [if_neg (by decide)]
    dsimp only
    rw [if_neg n1, if_neg n2]

/-- C6 witness: the digit 2 sequence ESC [ 2 ~ is unmapped and degrades to a
bare ESC keypress. -/
theorem escape_decoding_witness : editorReadKey 27 (91 :: 50 :: 126 :: []) = 27 :=
  escape_decoding.2.2.2.2.2.2.2.2.2.2.2.2.2.2.2.2.2.2.2.1 50 126 []
    (by decide) (by decide) (by decide) (by decide) (by decide) (by decide)
    (by decide) (by decide) (by decide)

/-- C7: save error atomicity — with a filename set, a failing open, truncate
or write step leaves the modified flag untouched and the rows unchanged and
produces the I/O-error status message; a fully successful write clears the
modified flag (and also leaves the rows unchanged). -/
theorem save_error_atomicity (s : EState) (f : List Nat)
    (sp : Option (List Nat)) (out : FsOutcome) (hf : s.filename = some f) :
    (out ≠ FsOutcome.success →
      (editorSave s sp out).modified = s.modified ∧
      (editorSave s sp out).rows = s.rows ∧
      (editorSave s sp out).statusmsg = StatusMsg.ioError) ∧
    (editorSave s sp out).rows = s.rows ∧
    (out = FsOutcome.success → (editorSave s sp out).modified = false) := by
  unfold editorSave
  rw [hf]
  cases out <;> simp [editorSaveWithFile]

/-- C7 witness: a failing open on a modified named buffer leaves modified set
and the rows intact, reporting the I/O error. -/
theorem save_error_atomicity_witness :
    ((FsOutcome.openFail ≠ FsOutcome.success →
      (editorSave exSave none FsOutcome.openFail).modified = exSave.modified ∧
      (editorSave exSave none FsOutcome.openFail).rows = exSave.rows ∧
      (editorSave exSave none FsOutcome.openFail).statusmsg
        = StatusMsg.ioError) ∧
    (editorSave exSave none FsOutcome.openFail).rows = exSave.rows ∧
    (FsOutcome.openFail = FsOutcome.success →
      (editorSave exSave none FsOutcome.openFail).modified = false)) :=
  save_error_atomicity exSave [102] none FsOutcome.openFail (by decide)

/-- C5: quit confirmation guard — an unmodified buffer exits immediately on
the quit key; a modified buffer with a positive counter only warns and
decrements; with the counter at zero the quit key exits; and every non-quit
dispatch that continues resets the counter to EDITOR_QUIT_TIMES. -/
theorem quit_confirmation (s : EState) (sp : Option (List Nat))
    (out : FsOutcome) (script : List Int) :
    (s.modified = false →
      editorProcessKeypress s 17 sp out script = StepResult.exited) ∧
    (s.modified = true → 0 < s.quit_times →
      editorProcessKeypress s 17 sp out script
        = StepResult.cont
            { s with
              statusmsg := StatusMsg.quitWarning s.quit_times
              quit_times := s.quit_times - 1 }) ∧
    (s.modified = true → s.quit_times ≤ 0 →
      editorProcessKeypress s 17 sp out script = StepResult.exited) ∧
    (∀ c : Int, c ≠ 17 → ∀ s' : EState,
      editorProcessKeypress s c sp out script = StepResult.cont s' →
      s'.quit_times = EDITOR_QUIT_TIMES) := by
  refine ⟨?_, ?_, ?_, ?_⟩
  · intro hm
    have hng : ¬ (s.modified = true ∧ 0 < s.quit_times) := by
      intro hcontra
      rw [hm] at hcontra
      exact Bool.false_ne_true hcontra.1
    unfold editorProcessKeypress
    rw [if_neg (by decide), if_pos rfl, if_neg hng]
  · intro hm hq
    unfold editorProcessKeypress
    rw [if_neg (by decide), if_pos rfl, if_pos ⟨hm, hq⟩]
  · intro hm hq
    have hng : ¬ (s.modified = true ∧ 0 < s.quit_times) := by
      intro hcontra
      exact absurd hcontra.2 (by omega)
    unfold editorProcessKeypress
    rw [if_neg (by decide), if_pos rfl, if_neg hng]
  · intro c hc s' h
    have step : ∀ x : EState, StepResult.cont x = StepResult.cont s' →
        x.quit_times = EDITOR_QUIT_TIMES → s'.quit_times = EDITOR_QUIT_TIMES := by
      intro x hx hq
      injection hx with h2
      rw [← h2]
      exact hq
    unfold editorProcessKeypress at h
    by_cases h13 : c = 13
    · rw [if_pos h13] at h
      exact step _ h rfl
    rw [if_neg h13, if_neg hc] at h
    by_cases h19 : c = 19
    · rw [if_pos h19] at h
      exact step _ h rfl
    rw [if_neg h19] at h
    by_cases hhome : c = HOME_KEY
    · rw [if_pos hhome] at h
      exact step _ h rfl
    rw [if_neg hhome] at h
    by_cases hend : c = END_KEY
    · rw [if_pos hend] at h
      exact step _ h rfl
    rw [if_neg hend] at h
    by_cases hfind : c = 6
    · rw [if_pos hfind] at h
      exact step _ h rfl
    rw [if_neg hfind] at h
    by_cases hbs : c = BACKSPACE ∨ c = 8 ∨ c = DEL_KEY
    · rw [if_pos hbs] at h
      exact step _ h rfl
    rw [if_neg hbs] at h
    by_cases hpg : c = PAGE_UP ∨ c = PAGE_DOWN
    · rw [if_pos hpg] at h
      exact step _ h rfl
    rw [if_neg hpg] at h
    by_cases har : c = ARROW_UP ∨ c = ARROW_DOWN ∨ c = ARROW_LEFT ∨ c = ARROW_RIGHT
    · rw [if_pos har] at h
      exact step _ h rfl
    rw [if_neg har] at h
    by_cases hesc : c = 12 ∨ c = 27
    · rw [if_pos hesc] at h
      exact step _ h rfl
    rw [if_neg hesc] at h
    exact step _ h rfl

/-- C5 witness: the first quit press on a modified buffer with the counter at
3 warns and decrements the counter without exiting. -/
theorem quit_confirmation_witness :
    editorProcessKeypress exSave 17 none FsOutcome.success []
      = StepResult.cont
          { exSave with
            statusmsg := StatusMsg.quitWarning 3, quit_times := 2 } :=
  (quit_confirmation exSave none FsOutcome.success []).2.1 (by decide)
    (by decide)

theorem set_len_append {α : Type} (A : List α) (x y : α) (B : List α) :
    (A ++ x :: B).set A.length y = A ++ y :: B := by
  induction A with
  | nil => rfl
  | cons a as ih => simpa using ih

theorem getD_len_append {α : Type} (A : List α) (x : α) (B : List α) (d : α) :
    (A ++ x :: B).getD A.length d = x := by
  induction A with
  | nil => rfl
  | cons a as ih => simpa using ih

theorem drop_len_succ_append {α : Type} (A : List α) (x : α) (B : List α) :
    (A ++ x :: B).drop (A.length + 1) = B := by
  induction A with
  | nil => rfl
  | cons a as ih => simpa using ih

theorem rowGet_at (A : List (List Nat)) (row : List Nat) (B : List (List Nat))
    (k : Int) (hk : k.toNat = A.length) :
    rowGet (A ++ row :: B) k = row := by
  unfold rowGet
  rw [hk]
  exact getD_len_append A row B []

theorem editorInsertRow_at (s : EState) (A B : List (List Nat))
    (str : List Nat) (k : Int) (hk0 : 0 ≤ k) (hk : k.toNat = A.length)
    (hrows : s.rows = A ++ B) :
    editorInsertRow s k str
      = { s with rows := A ++ str :: B, modified := true } := by
  have hlen : s.rows.length = A.length + B.length := by
    rw [hrows]; simp
  have hcond : ¬ (k < 0 ∨ k > ((s.rows.length : Nat) : Int)) := by omega
  unfold editorInsertRow EState.numrows
  rw [if_neg hcond, hrows, hk, List.take_left, List.drop_left]

theorem editorDelRow_at (s : EState) (A : List (List Nat)) (row : List Nat)
    (B : List (List Nat)) (k : Int) (hk0 : 0 ≤ k) (hk : k.toNat = A.length)
    (hrows : s.rows = A ++ row :: B) :
    editorDelRow s k = { s with rows := A ++ B, modified := true } := by
  have hlen : s.rows.length = A.length + B.length + 1 := by
    rw [hrows]
    simp only [List.length_append, List.length_cons]
    omega
  have hcond : ¬ (k < 0 ∨ k ≥ ((s.rows.length : Nat) : Int)) := by omega
  unfold editorDelRow EState.numrows
  rw [if_neg hcond, hrows, hk, List.take_left, drop_len_succ_append]

theorem editorRowAppendString_at (s : EState) (A : List (List Nat))
    (row : List Nat) (B : List (List Nat)) (k : Int)
    (hk : k.toNat = A.length) (hrows : s.rows = A ++ row :: B)
    (str : List Nat) :
    editorRowAppendString s k str
      = { s with rows := A ++ (row ++ str) :: B, modified := true } := by
  unfold editorRowAppendString
  rw [hrows, rowGet_at A row B k hk, hk, set_len_append]

/-- C4: row split/merge inverse — for a cursor on a real row with a valid
split column, inserting a newline (split) and then deleting the character at
the start of the new row (merge: append second row onto the first, delete
the second) restores the buffer, the cursor, and every other field, leaving
only the modified flag set. -/
theorem split_merge_inverse (s : EState)
    (hcy0 : 0 ≤ s.cy) (hcy : s.cy < s.numrows)
    (hcx0 : 0 ≤ s.cx) (hcx : s.cx ≤ ((rowGet s.rows s.cy).length : Int)) :
    editorDelChar (editorInsertNewLine s) = { s with modified := true } := by
  have hn : s.cy.toNat < s.rows.length := by
    unfold EState.numrows at hcy
    omega
  have hdecomp : s.rows
      = s.rows.take s.cy.toNat
        ++ s.rows.getD s.cy.toNat [] :: s.rows.drop (s.cy.toNat + 1) := by
    rw [List.getD_eq_getElem s.rows [] hn, ← List.drop_eq_getElem_cons hn,
      List.take_append_drop]
  set A := s.rows.take s.cy.toNat with hA_def
  set row := s.rows.getD s.cy.toNat [] with hrow_def
  set B := s.rows.drop (s.cy.toNat + 1) with hB_def
  have hA : A.length = s.cy.toNat := by
    rw [hA_def]
    simp
    omega
  by_cases hx : s.cx = 0
  · have h1 : editorInsertNewLine s
        = { s with
            rows := A ++ [] :: row :: B
            modified := true
            cy := s.cy + 1
            cx := 0 } := by
      unfold editorInsertNewLine
      rw [if_pos hx,
        editorInsertRow_at s A (row :: B) [] s.cy hcy0 (by omega) hdecomp]
    rw [h1]
    unfold editorDelChar EState.numrows
    dsimp only
    rw [if_neg (by
      simp only [List.length_append, List.length_cons]
      omega)]
    rw [if_neg (by
      rintro ⟨hc1, hc2⟩
      omega)]
    rw [if_neg (by omega)]
    rw [show rowGet (A ++ [] :: row :: B) (s.cy + 1) = row from by
      rw [show A ++ [] :: row :: B = (A ++ [[]]) ++ row :: B from by simp]
      exact rowGet_at (A ++ [[]]) row B (s.cy + 1)
        (by simp only [List.length_append, List.length_cons, List.length_nil]; omega)]
    rw [show rowGet (A ++ [] :: row :: B) (s.cy + 1 - 1) = ([] : List Nat) from
      rowGet_at A [] (row :: B) (s.cy + 1 - 1) (by omega)]
    rw [editorRowAppendString_at _ A [] (row :: B) (s.cy + 1 - 1)
      (by omega) (by dsimp only) row]
    simp only [List.nil_append]
    rw [editorDelRow_at _ (A ++ [row]) row B (s.cy + 1)
      (by omega)
      (by simp only [List.length_append, List.length_cons, List.length_nil]; omega)
      (by dsimp only; simp)]
    dsimp only
    have e1 : (A ++ [row]) ++ B = s.rows := by
      rw [hdecomp]
      simp
    have e2 : s.cy + 1 - 1 = s.cy := by omega
    have e3 : ((([] : List Nat).length : Nat) : Int) = s.cx := by
      simp
      omega
    rw [e1, e2, e3]
  · have hcxle : s.cx ≤ (row.length : Int) := hcx
    have h1 : editorInsertNewLine s
        = { s with
            rows := A ++ row.take s.cx.toNat :: row.drop s.cx.toNat :: B
            modified := true
            cy := s.cy + 1
            cx := 0 } := by
      unfold editorInsertNewLine
      rw [if_neg hx]
      dsimp only
      rw [show rowGet s.rows s.cy = row from rfl]
      rw [editorInsertRow_at s (A ++ [row]) B (row.drop s.cx.toNat) (s.cy + 1)
        (by omega)
        (by simp only [List.length_append, List.length_cons, List.length_nil]
            omega)
        (by rw [hdecomp]; simp)]
      dsimp only
      rw [show (A ++ [row]) ++ row.drop s.cx.toNat :: B
          = A ++ row :: row.drop s.cx.toNat :: B from by simp]
      rw [show s.cy.toNat = A.length from by omega]
      rw [set_len_append]
    rw [h1]
    unfold editorDelChar EState.numrows
    dsimp only
    rw [if_neg (by
      simp only [List.length_append, List.length_cons]
      omega)]
    rw [if_neg (by
      rintro ⟨hc1, hc2⟩
      omega)]
    rw [if_neg (by omega)]
    rw [show rowGet (A ++ row.take s.cx.toNat :: row.drop s.cx.toNat :: B)
        (s.cy + 1) = row.drop s.cx.toNat from by
      rw [show A ++ row.take s.cx.toNat :: row.drop s.cx.toNat :: B
          = (A ++ [row.take s.cx.toNat]) ++ row.drop s.cx.toNat :: B from by
        simp]
      exact rowGet_at _ _ _ _
        (by simp only [List.length_append, List.length_cons, List.length_nil]
            omega)]
    rw [show rowGet (A ++ row.take s.cx.toNat :: row.drop s.cx.toNat :: B)
        (s.cy + 1 - 1) = row.take s.cx.toNat from
      rowGet_at A _ _ _ (by omega)]
    rw [editorRowAppendString_at _ A (row.take s.cx.toNat)
      (row.drop s.cx.toNat :: B) (s.cy + 1 - 1)
      (by omega) (by dsimp only) (row.drop s.cx.toNat)]
    rw [List.take_append_drop]
    rw [editorDelRow_at _ (A ++ [row]) (row.drop s.cx.toNat) B (s.cy + 1)
      (by omega)
      (by simp only [List.length_append, List.length_cons, List.length_nil]
          omega)
      (by dsimp only; simp)]
    dsimp only
    have e1 : (A ++ [row]) ++ B = s.rows := by
      rw [hdecomp]
      simp
    have e2 : s.cy + 1 - 1 = s.cy := by omega
    have e3 : (((row.take s.cx.toNat).length : Nat) : Int) = s.cx := by
      simp only [List.length_take]
      omega
    rw [e1, e2, e3]

/-- C4 witness: splitting the row [97, 98] at column 1 and merging back
restores the concrete state exactly (up to the modified flag). -/
theorem split_merge_inverse_witness :
    editorDelChar (editorInsertNewLine exInv) = { exInv with modified := true } :=
  split_merge_inverse exInv (by decide) (by decide) (by decide) (by decide)

theorem CursorInv_of_frame (s t : EState) (hrows : t.rows = s.rows)
    (hcx : t.cx = s.cx) (hcy : t.cy = s.cy) (h : CursorInv s) : CursorInv t := by
  unfold CursorInv WeakInv EState.numrows at *
  rw [hrows, hcx, hcy]
  exact h

theorem getD_set_self {α : Type} (l : List α) (n : Nat) (x d : α)
    (h : n < l.length) : (l.set n x).getD n d = x := by
  rw [List.getD_eq_getElem _ _ (by simpa using h)]
  exact List.getElem_set_self _

theorem editorRowRxToCxGo_le (rx : Nat) :
    ∀ (chars : List Nat) (cur cx : Nat),
      editorRowRxToCxGo rx chars cur cx ≤ cx + chars.length := by
  intro chars
  induction chars with
  | nil => intro cur cx; simp [editorRowRxToCxGo]
  | cons c rest ih =>
    intro cur cx
    unfold editorRowRxToCxGo
    dsimp only
    split_ifs <;>
      simp only [List.length_cons] <;>
      first
        | omega
        | exact le_trans (ih _ _) (by omega)

theorem editorRowRxToCx_le (chars : List Nat) (rx : Nat) :
    editorRowRxToCx chars rx ≤ chars.length := by
  have := editorRowRxToCxGo_le rx chars 0 0
  simpa [editorRowRxToCx] using this

theorem editorMoveCursorSwitch_weak (s : EState) (key : Int) (h : WeakInv s) :
    WeakInv (editorMoveCursorSwitch s key) ∧
    (editorMoveCursorSwitch s key).rows = s.rows ∧
    (editorMoveCursorSwitch s key).screenrows = s.screenrows := by
  obtain ⟨h1, h2, h3⟩ := h
  unfold editorMoveCursorSwitch
  unfold WeakInv EState.numrows at *
  split_ifs <;>
    refine ⟨⟨?_, ?_, ?_⟩, rfl, rfl⟩ <;> dsimp only <;> omega

theorem editorMoveCursor_inv (s : EState) (key : Int) (h : WeakInv s) :
    CursorInv (editorMoveCursor s key) ∧
    (editorMoveCursor s key).rows = s.rows ∧
    (editorMoveCursor s key).screenrows = s.screenrows := by
  obtain ⟨hw, hrows, hsr⟩ := editorMoveCursorSwitch_weak s key h
  unfold editorMoveCursor
  dsimp only
  set t := editorMoveCursorSwitch s key with ht
  obtain ⟨w1, w2, w3⟩ := hw
  have hrowlen : (if t.cy ≥ t.numrows then 0
      else ((rowGet t.rows t.cy).length : Int))
      = ((rowGet t.rows t.cy).length : Int) := by
    split_ifs with hc
    · unfold EState.numrows at hc w2
      have hge : t.rows.length ≤ t.cy.toNat := by omega
      unfold rowGet
      rw [List.getD_eq_default _ _ hge]
      rfl
    · rfl
  rw [hrowlen]
  split_ifs with hclamp
  · refine ⟨⟨⟨w1, w2, ?_⟩, ?_⟩, hrows, hsr⟩ <;> dsimp only <;> omega
  · refine ⟨⟨⟨w1, w2, w3⟩, by omega⟩, hrows, hsr⟩

theorem repeatMove_inv (key : Int) :
    ∀ (n : Nat) (s : EState), WeakInv s → 1 ≤ n →
      CursorInv (repeatMove key n s) ∧
      (repeatMove key n s).rows = s.rows ∧
      (repeatMove key n s).screenrows = s.screenrows := by
  intro n
  induction n with
  | zero => intro s _ hn; omega
  | succ m ih =>
    intro s hs hn
    obtain ⟨hinv, hrows, hsr⟩ := editorMoveCursor_inv s key hs
    by_cases hm : m = 0
    · subst hm
      exact ⟨hinv, hrows, hsr⟩
    · have hstep := ih (editorMoveCursor s key) hinv.1 (by omega)
      unfold repeatMove
      refine ⟨hstep.1, ?_, ?_⟩
      · rw [hstep.2.1, hrows]
      · rw [hstep.2.2, hsr]

theorem pageMove_inv (s : EState) (c : Int) (h : CursorInv s)
    (hro0 : 0 ≤ s.rowoff) (hro1 : s.rowoff ≤ s.numrows)
    (hsr : 1 ≤ s.screenrows) : CursorInv (pageMove s c) := by
  obtain ⟨⟨h1, h2, h3⟩, h4⟩ := h
  unfold EState.numrows at hro1
  unfold pageMove
  dsimp only
  by_cases hc : c = PAGE_UP
  · subst hc
    rw [if_pos rfl, if_pos rfl]
    refine (repeatMove_inv ARROW_UP _ _ ⟨?_, ?_, ?_⟩ ?_).1 <;>
      (dsimp only [EState.numrows]; omega)
  · rw [if_neg hc, if_neg hc]
    refine (repeatMove_inv ARROW_DOWN _ _ ⟨?_, ?_, ?_⟩ ?_).1 <;>
      (dsimp only [EState.numrows]; first | (split_ifs <;> omega) | omega)

theorem editorInsertRow_len (s : EState) (k : Int) (str : List Nat)
    (hk0 : 0 ≤ k) (hk : k ≤ s.numrows) :
    (editorInsertRow s k str).rows.length = s.rows.length + 1 ∧
    (editorInsertRow s k str).cx = s.cx ∧
    (editorInsertRow s k str).cy = s.cy := by
  unfold EState.numrows at hk
  unfold editorInsertRow EState.numrows
  rw [if_neg (by omega)]
  refine ⟨?_, rfl, rfl⟩
  simp only [List.length_append, List.length_cons, List.length_take,
    List.length_drop]
  omega

theorem editorInsertNewLine_inv (s : EState) (h : CursorInv s) :
    CursorInv (editorInsertNewLine s) := by
  obtain ⟨⟨h1, h2, h3⟩, h4⟩ := h
  have h2' : s.cy ≤ (s.rows.length : Int) := by unfold EState.numrows at h2; omega
  unfold editorInsertNewLine
  by_cases hx : s.cx = 0
  · rw [if_pos hx]
    obtain ⟨hl, hcx1, hcy1⟩ := editorInsertRow_len s s.cy [] h1 h2
    unfold CursorInv WeakInv EState.numrows
    dsimp only
    refine ⟨⟨?_, ?_, ?_⟩, ?_⟩
    · rw [hcy1]
      omega
    · rw [hcy1, hl]
      push_cast
      omega
    · omega
    · omega
  · rw [if_neg hx]
    dsimp only
    have hcylt : s.cy.toNat < s.rows.length := by
      by_contra hcge
      have hrow0 : rowGet s.rows s.cy = [] := by
        unfold rowGet
        exact List.getD_eq_default _ _ (by omega)
      rw [hrow0] at h4
      simp at h4
      omega
    obtain ⟨hl, hcx1, hcy1⟩ := editorInsertRow_len s (s.cy + 1)
      ((rowGet s.rows s.cy).drop s.cx.toNat) (by omega)
      (by unfold EState.numrows; omega)
    unfold CursorInv WeakInv EState.numrows
    dsimp only
    refine ⟨⟨?_, ?_, ?_⟩, ?_⟩
    · rw [hcy1]
      omega
    · simp only [List.length_set]
      rw [hcy1, hl]
      push_cast
      omega
    · omega
    · omega

theorem editorInsertChar_inv (s : EState) (c : Nat) (h : CursorInv s) :
    CursorInv (editorInsertChar s c) := by
  obtain ⟨⟨h1, h2, h3⟩, h4⟩ := h
  have h2' : s.cy ≤ (s.rows.length : Int) := by
    unfold EState.numrows at h2
    omega
  unfold editorInsertChar
  by_cases hend : s.cy = s.numrows
  · rw [if_pos hend]
    have hendn : s.cy.toNat = s.rows.length := by
      unfold EState.numrows at hend
      omega
    have hrow0 : rowGet s.rows s.cy = [] := by
      unfold rowGet
      exact List.getD_eq_default _ _ (by omega)
    have hcx0 : s.cx = 0 := by
      rw [hrow0] at h4
      simp at h4
      omega
    rw [editorInsertRow_at s s.rows [] [] s.numrows
      (by unfold EState.numrows; omega) (by unfold EState.numrows; omega)
      (by simp)]
    unfold editorRowInsertChar
    dsimp only
    rw [rowGet_at s.rows [] [] s.cy (by omega)]
    rw [if_neg (by
      simp only [List.length_nil, Nat.cast_zero]
      omega)]
    simp only [List.take_nil, List.drop_nil, List.nil_append]
    rw [show s.cy.toNat = s.rows.length from hendn, set_len_append]
    unfold CursorInv WeakInv EState.numrows
    dsimp only
    rw [rowGet_at s.rows (c :: []) [] s.cy (by omega)]
    simp only [List.length_append, List.length_cons, List.length_nil]
    refine ⟨⟨by omega, by push_cast; omega, by omega⟩, by push_cast; omega⟩
  · rw [if_neg hend]
    have hcylt : s.cy.toNat < s.rows.length := by
      unfold EState.numrows at hend
      omega
    unfold editorRowInsertChar
    dsimp only
    rw [if_neg (by rintro (hc | hc) <;> omega)]
    set R := (rowGet s.rows s.cy).take s.cx.toNat
      ++ c :: (rowGet s.rows s.cy).drop s.cx.toNat with hRdef
    have hget : rowGet (s.rows.set s.cy.toNat R) s.cy = R := by
      unfold rowGet
      exact getD_set_self _ _ _ _ hcylt
    have hRlen : R.length = (rowGet s.rows s.cy).length + 1 := by
      rw [hRdef]
      simp only [List.length_append, List.length_cons, List.length_take,
        List.length_drop]
      omega
    unfold CursorInv WeakInv EState.numrows
    dsimp only
    rw [hget]
    simp only [List.length_set]
    refine ⟨⟨by omega, by omega, by omega⟩, by rw [hRlen]; push_cast; omega⟩

theorem editorDelChar_inv (s : EState) (h : CursorInv s) :
    CursorInv (editorDelChar s) := by
  obtain ⟨⟨h1, h2, h3⟩, h4⟩ := h
  unfold editorDelChar
  by_cases hend : s.cy = s.numrows
  · rw [if_pos hend]
    exact ⟨⟨h1, h2, h3⟩, h4⟩
  rw [if_neg hend]
  by_cases hstart : s.cx = 0 ∧ s.cy = 0
  · rw [if_pos hstart]
    exact ⟨⟨h1, h2, h3⟩, h4⟩
  rw [if_neg hstart]
  dsimp only
  have hcylt : s.cy.toNat < s.rows.length := by
    unfold EState.numrows at hend h2
    omega
  by_cases hxpos : 0 < s.cx
  · rw [if_pos hxpos]
    unfold editorRowDelChar
    dsimp only
    rw [if_neg (by rintro (hc | hc) <;> omega)]
    set R := (rowGet s.rows s.cy).take (s.cx - 1).toNat
      ++ (rowGet s.rows s.cy).drop ((s.cx - 1).toNat + 1) with hRdef
    have hget : rowGet (s.rows.set s.cy.toNat R) s.cy = R := by
      unfold rowGet
      exact getD_set_self _ _ _ _ hcylt
    have hRlen : R.length = (rowGet s.rows s.cy).length - 1 := by
      rw [hRdef]
      simp only [List.length_append, List.length_take, List.length_drop]
      omega
    unfold CursorInv WeakInv EState.numrows
    dsimp only
    rw [hget]
    simp only [List.length_set]
    refine ⟨⟨by omega, by omega, by omega⟩, by rw [hRlen]; push_cast; omega⟩
  · rw [if_neg hxpos]
    have hx0 : s.cx = 0 := by omega
    have hy0 : 0 < s.cy := by
      by_contra hc
      exact hstart ⟨hx0, by omega⟩
    set n := s.cy.toNat with hn
    have hn1 : 1 ≤ n := by omega
    have hlt1 : n - 1 < s.rows.length := by omega
    have he : n - 1 + 1 = n := by omega
    have hd1 : s.rows.drop (n - 1)
        = s.rows.getD (n - 1) [] :: s.rows.drop (n - 1 + 1) := by
      rw [List.getD_eq_getElem _ _ hlt1]
      exact List.drop_eq_getElem_cons hlt1
    rw [he] at hd1
    have hd2 : s.rows.drop n = s.rows.getD n [] :: s.rows.drop (n + 1) := by
      rw [List.getD_eq_getElem _ _ hcylt, ← List.drop_eq_getElem_cons hcylt]
    have hdecomp : s.rows = s.rows.take (n - 1)
        ++ s.rows.getD (n - 1) [] :: s.rows.getD n [] :: s.rows.drop (n + 1) := by
      conv_lhs => rw [← List.take_append_drop (n - 1) s.rows]
      rw [hd1, hd2]
    set A := s.rows.take (n - 1) with hAdef
    set prev := s.rows.getD (n - 1) [] with hprevdef
    set row := s.rows.getD n [] with hrowdef
    set B := s.rows.drop (n + 1) with hBdef
    have hA : A.length = n - 1 := by
      rw [hAdef]
      simp only [List.length_take]
      omega
    have hlen : s.rows.length = A.length + B.length + 2 := by
      conv_lhs => rw [hdecomp]
      simp only [List.length_append, List.length_cons]
      omega
    have hprev : rowGet s.rows (s.cy - 1) = prev := by
      rw [hdecomp]
      exact rowGet_at A prev (row :: B) (s.cy - 1) (by omega)
    have hrow : rowGet s.rows s.cy = row := by
      rw [hdecomp,
        show A ++ prev :: row :: B = (A ++ [prev]) ++ row :: B from by simp]
      exact rowGet_at (A ++ [prev]) row B s.cy
        (by simp only [List.length_append, List.length_cons, List.length_nil]; omega)
    rw [hrow, hprev]
    rw [editorRowAppendString_at s A prev (row :: B) (s.cy - 1)
      (by omega) hdecomp row]
    rw [editorDelRow_at _ (A ++ [prev ++ row]) row B s.cy (by omega)
      (by simp only [List.length_append, List.length_cons, List.length_nil]; omega)
      (by dsimp only; simp)]
    unfold CursorInv WeakInv EState.numrows
    dsimp only
    rw [show (A ++ [prev ++ row]) ++ B = A ++ (prev ++ row) :: B from by simp]
    rw [rowGet_at A (prev ++ row) B (s.cy - 1) (by omega)]
    simp only [List.length_append, List.length_cons]
    refine ⟨⟨by omega, by push_cast; omega, by omega⟩, by push_cast; omega⟩


theorem CursorInv_qt (s0 : EState) (q : Int) (h : CursorInv s0) :
    CursorInv { s0 with quit_times := q } :=
  CursorInv_of_frame s0 _ rfl rfl rfl h

theorem editorFindCallback_inv (q : List Nat) (key : Int) (fs : FindState)
    (s : EState) (hs : CursorInv s) (hf : FindInv fs s.rows) :
    CursorInv (editorFindCallback q key fs s).2 ∧
    FindInv (editorFindCallback q key fs s).1 s.rows ∧
    (editorFindCallback q key fs s).2.rows = s.rows := by
  unfold editorFindCallback
  by_cases hk : key = 13 ∨ key = 27
  · rw [if_pos hk]
    exact ⟨hs, Or.inl rfl, rfl⟩
  · rw [if_neg hk]
    dsimp only
    have hfc : FindInv (findClassify key fs) s.rows := by
      rcases findClassify_last_match key fs with hcl | hcl
      · exact Or.inl hcl
      · rcases hf with hf2 | hf2
        · exact Or.inl (hcl.trans hf2)
        · exact Or.inr (hcl ▸ hf2)
    cases hsearch : searchLoop s.rows q (findClassify key fs).direction
        (findClassify key fs).last_match s.rows.length with
    | none =>
      dsimp only
      exact ⟨hs, hfc, rfl⟩
    | some pr =>
      obtain ⟨r, idx⟩ := pr
      dsimp only
      have hlen : 0 < s.rows.length := by
        by_contra hc
        have h0 : s.rows.length = 0 := by omega
        rw [h0] at hsearch
        simp [searchLoop] at hsearch
      have hr : 0 ≤ r ∧ r < (s.rows.length : Int) :=
        searchLoop_row_lt s.rows q (findClassify key fs).direction
          (findClassify_direction key fs) s.rows.length
          (findClassify key fs).last_match r idx
          (findClassify_forward key fs) hfc hlen hsearch
      have hcx := editorRowRxToCx_le (rowGet s.rows r) idx
      obtain ⟨hs1, hs2, hs3⟩ := hs.1
      unfold CursorInv WeakInv EState.numrows FindInv
      dsimp only
      refine ⟨⟨⟨by omega, by omega, by omega⟩, by omega⟩,
        Or.inr ⟨hr.1, hr.2⟩, rfl⟩

theorem editorPromptFind_inv (c : Int) (rest : List Int)
    (ih : ∀ (fs : FindState) (s : EState) (buf : List Nat),
      CursorInv s → FindInv fs s.rows →
      CursorInv (editorPromptFind fs s buf rest).2.1 ∧
      (editorPromptFind fs s buf rest).2.1.rows = s.rows)
    (fs : FindState) (s : EState) (buf : List Nat)
    (hs : CursorInv s) (hf : FindInv fs s.rows) :
    CursorInv (editorPromptFind fs s buf (c :: rest)).2.1 ∧
    (editorPromptFind fs s buf (c :: rest)).2.1.rows = s.rows := by
  have hstep : ∀ (fs1 : FindState) (st : EState) (buf2 : List Nat),
      CursorInv st → FindInv fs1 s.rows → st.rows = s.rows →
      CursorInv (editorPromptFind (editorFindCallback buf2 c fs1 st).1
          (editorFindCallback buf2 c fs1 st).2 buf2 rest).2.1 ∧
      (editorPromptFind (editorFindCallback buf2 c fs1 st).1
          (editorFindCallback buf2 c fs1 st).2 buf2 rest).2.1.rows = s.rows := by
    intro fs1 st buf2 hst hf1 hroweq
    obtain ⟨hcb1, hcb2, hcb3⟩ := editorFindCallback_inv buf2 c fs1 st hst
      (by rw [hroweq]; exact hf1)
    obtain ⟨ha, hb⟩ := ih (editorFindCallback buf2 c fs1 st).1
      (editorFindCallback buf2 c fs1 st).2 buf2 hcb1 (by rw [hcb3]; exact hcb2)
    refine ⟨ha, ?_⟩
    rw [hb, hcb3, hroweq]
  have hterm : ∀ (fs1 : FindState) (st : EState) (buf2 : List Nat),
      CursorInv st → FindInv fs1 s.rows → st.rows = s.rows →
      CursorInv (editorFindCallback buf2 c fs1 st).2 ∧
      (editorFindCallback buf2 c fs1 st).2.rows = s.rows := by
    intro fs1 st buf2 hst hf1 hroweq
    obtain ⟨hcb1, _, hcb3⟩ := editorFindCallback_inv buf2 c fs1 st hst
      (by rw [hroweq]; exact hf1)
    exact ⟨hcb1, by rw [hcb3, hroweq]⟩
  have hs0 : CursorInv (editorScroll { s with statusmsg := StatusMsg.searchPrompt }) :=
    CursorInv_of_frame s _ rfl rfl rfl hs
  have hrows0 : (editorScroll { s with statusmsg := StatusMsg.searchPrompt }).rows
      = s.rows := rfl
  have hs0' : CursorInv { editorScroll { s with statusmsg := StatusMsg.searchPrompt }
      with statusmsg := StatusMsg.empty } :=
    CursorInv_of_frame _ _ rfl rfl rfl hs0
  unfold editorPromptFind
  dsimp only
  split_ifs with hc1 hb1 hc2 hc3 hb2 hc4
  · exact hstep fs _ buf.dropLast hs0 hf hrows0
  · exact hstep fs _ buf hs0 hf hrows0
  · exact hterm fs _ buf hs0' hf hrows0
  · exact hterm fs _ buf hs0' hf hrows0
  · exact hstep fs _ buf hs0 hf hrows0
  · exact hstep fs _ (buf ++ [c.toNat]) hs0 hf hrows0
  · exact hstep fs _ buf hs0 hf hrows0

theorem editorPromptFind_inv_all (script : List Int) :
    ∀ (fs : FindState) (s : EState) (buf : List Nat),
      CursorInv s → FindInv fs s.rows →
      CursorInv (editorPromptFind fs s buf script).2.1 ∧
      (editorPromptFind fs s buf script).2.1.rows = s.rows := by
  induction script with
  | nil =>
    intro fs s buf hs _
    exact ⟨hs, rfl⟩
  | cons c rest ih =>
    intro fs s buf hs hf
    exact editorPromptFind_inv c rest ih fs s buf hs hf

theorem editorFind_inv (s : EState) (script : List Int) (h : CursorInv s) :
    CursorInv (editorFind s script) := by
  obtain ⟨hinv, hrows⟩ := editorPromptFind_inv_all script ⟨-1, 1⟩ s [] h
    (Or.inl rfl)
  unfold editorFind
  dsimp only
  cases hq : (editorPromptFind ⟨-1, 1⟩ s [] script).2.2 with
  | some q => exact hinv
  | none =>
    refine CursorInv_of_frame s _ ?_ rfl rfl h
    dsimp only
    exact hrows

theorem editorSave_inv (s : EState) (sp : Option (List Nat)) (out : FsOutcome)
    (h : CursorInv s) : CursorInv (editorSave s sp out) := by
  unfold editorSave editorSaveWithFile
  cases hfn : s.filename with
  | none =>
    cases sp with
    | none => exact CursorInv_of_frame s _ rfl rfl rfl h
    | some f => cases out <;> exact CursorInv_of_frame s _ rfl rfl rfl h
  | some f => cases out <;> exact CursorInv_of_frame s _ rfl rfl rfl h

/-- C9 (amended): starting from a state satisfying the cursor invariant
(0 ≤ cy ≤ numrows, 0 ≤ cx ≤ length of row cy) whose row offset also lies in
[0, numrows] and whose text area has at least one screen row, every keypress
dispatch that continues preserves the cursor invariant. -/
theorem keypress_preserves_cursor_inv (s : EState) (c : Int)
    (sp : Option (List Nat)) (out : FsOutcome) (script : List Int)
    (s' : EState) (hinv : CursorInv s) (hro0 : 0 ≤ s.rowoff)
    (hro1 : s.rowoff ≤ s.numrows) (hsr : 1 ≤ s.screenrows)
    (h : editorProcessKeypress s c sp out script = StepResult.cont s') :
    CursorInv s' := by
  have step : ∀ x : EState, StepResult.cont x = StepResult.cont s' →
      CursorInv x → CursorInv s' := by
    intro x hx hq
    injection hx with h2
    rw [← h2]
    exact hq
  unfold editorProcessKeypress at h
  by_cases h13 : c = 13
  · rw [if_pos h13] at h
    exact step _ h (CursorInv_qt (editorInsertNewLine s) _
      (editorInsertNewLine_inv s hinv))
  rw [if_neg h13] at h
  by_cases h17 : c = 17
  · rw [if_pos h17] at h
    by_cases hq : s.modified = true ∧ 0 < s.quit_times
    · rw [if_pos hq] at h
      exact step _ h (CursorInv_of_frame s _ rfl rfl rfl hinv)
    · rw [if_neg hq] at h
      exact StepResult.noConfusion h
  rw [if_neg h17] at h
  by_cases h19 : c = 19
  · rw [if_pos h19] at h
    exact step _ h (CursorInv_qt (editorSave s sp out) _
      (editorSave_inv s sp out hinv))
  rw [if_neg h19] at h
  by_cases hhome : c = HOME_KEY
  · rw [if_pos hhome] at h
    refine step _ h ?_
    unfold CursorInv WeakInv EState.numrows at hinv ⊢
    dsimp only
    omega
  rw [if_neg hhome] at h
  by_cases hendk : c = END_KEY
  · rw [if_pos hendk] at h
    refine step _ h ?_
    by_cases hlt : s.cy < s.numrows
    · rw [if_pos hlt]
      unfold CursorInv WeakInv EState.numrows at hinv ⊢
      dsimp only
      omega
    · rw [if_neg hlt]
      exact CursorInv_qt s _ hinv
  rw [if_neg hendk] at h
  by_cases hfind : c = 6
  · rw [if_pos hfind] at h
    exact step _ h (CursorInv_qt (editorFind s script) _
      (editorFind_inv s script hinv))
  rw [if_neg hfind] at h
  by_cases hbs : c = BACKSPACE ∨ c = 8 ∨ c = DEL_KEY
  · rw [if_pos hbs] at h
    refine step _ h (CursorInv_qt _ _ ?_)
    by_cases hdel : c = DEL_KEY
    · rw [if_pos hdel]
      exact editorDelChar_inv _ ((editorMoveCursor_inv s ARROW_RIGHT hinv.1).1)
    · rw [if_neg hdel]
      exact editorDelChar_inv s hinv
  rw [if_neg hbs] at h
  by_cases hpg : c = PAGE_UP ∨ c = PAGE_DOWN
  · rw [if_pos hpg] at h
    exact step _ h (CursorInv_qt (pageMove s c) _
      (pageMove_inv s c hinv hro0 hro1 hsr))
  rw [if_neg hpg] at h
  by_cases har : c = ARROW_UP ∨ c = ARROW_DOWN ∨ c = ARROW_LEFT ∨ c = ARROW_RIGHT
  · rw [if_pos har] at h
    exact step _ h (CursorInv_qt (editorMoveCursor s c) _
      ((editorMoveCursor_inv s c hinv.1).1))
  rw [if_neg har] at h
  by_cases hesc : c = 12 ∨ c = 27
  · rw [if_pos hesc] at h
    exact step _ h (CursorInv_qt s _ hinv)
  rw [if_neg hesc] at h
  exact step _ h (CursorInv_qt (editorInsertChar s c.toNat) _
    (editorInsertChar_inv s c.toNat hinv))

/-- C9 counterexample: a concrete state satisfying the cursor invariant of
the claim (cursor (0,0), empty buffer) but whose rowoff is 5; the PageUp
dispatch jumps cy to rowoff and one up-step later leaves cy = 4 > numrows =
0, violating the invariant. -/
theorem cursor_inv_not_preserved :
    CursorInv exPage ∧
    editorProcessKeypress exPage 1007 none FsOutcome.success []
      = StepResult.cont { exPage with cy := 4 } ∧
    ¬ CursorInv { exPage with cy := 4 } := by
  refine ⟨by decide, by decide, by decide⟩

/-- C9 witness: an arrow-right dispatch from a well-formed two-row state
lands in a state still satisfying the cursor invariant. -/
theorem keypress_preserves_cursor_inv_witness :
    CursorInv { exInv with cx := 2 } :=
  keypress_preserves_cursor_inv exInv 1001 none FsOutcome.success []
    { exInv with cx := 2 } (by decide) (by decide) (by decide) (by decide)
    (by decide)
